import Mathlib

/-!
Shallow embedding of the promise/future library in `src/lib.rs`
(crate `promise_rs`).

The Rust `Promise` struct holds three independently mutex-guarded slots
(`value`, `status`, `handlers`) shared with one background thread, plus
that thread's join handle.  We embed the settlement cell as a plain
structure and every operation as a state-passing function; an operation
that would panic (an `unwrap()` on an empty `Option` slot) returns
`none`.  The join handle and the background execution unit are modelled
separately by `Proc` / `a_await`.
-/

/-- Settlement status (`enum Status` in src/lib.rs). -/
inductive Status where
  | Pending
  | Fulfilled
  | Rejected
deriving DecidableEq

/-- A queued handler (`struct Handler` in src/lib.rs): the `resolve`
flag marks a fulfillment handler, `handler` is the boxed transform. -/
structure Handler where
  resolve : Bool
  handler : Option String → Option String

/-- The settlement cell of a promise (`struct Promise` in src/lib.rs,
without the `thread` join handle, which `Proc` models): the
mutex-guarded `value`, `status` and `handlers` slots. -/
structure Promise where
  value : Option String
  status : Option Status
  handlers : Option (List Handler)

/-- The fresh cell allocated by `Promise::new`: value absent, status
`Some(Pending)`, handler queue `Some(vec![])`. -/
def initPromise : Promise :=
  ⟨none, some Status.Pending, some []⟩

/-- The `resolve` closure built inside `Promise::new` (src/lib.rs lines
41-54): `handlers.take().unwrap()` empties the handler slot — `none`
here models the panic when the queue was already consumed — then the
loop folds every entry with `resolve == true` over the payload in
insertion order, the result is stored in `value`, and
`status.as_mut().unwrap()` (again `none` models the panic) is set to
`Fulfilled`. -/
def resolveCb (value : Option String) (p : Promise) : Option Promise :=
  match p.handlers with
  | none => none
  | some hs =>
    let prev_value := hs.foldl
      (fun prev h => if h.resolve == true then h.handler prev else prev) value
    match p.status with
    | none => none
    | some _ => some ⟨prev_value, some Status.Fulfilled, none⟩

/-- The `reject` closure built inside `Promise::new` (src/lib.rs lines
55-68): symmetric to `resolveCb`, applying only entries with
`resolve == false` and setting the status to `Rejected`. -/
def rejectCb (reason : Option String) (p : Promise) : Option Promise :=
  match p.handlers with
  | none => none
  | some hs =>
    let prev_reason := hs.foldl
      (fun prev h => if h.resolve == false then h.handler prev else prev) reason
    match p.status with
    | none => none
    | some _ => some ⟨prev_reason, some Status.Rejected, none⟩

/-- `Promise::then` (src/lib.rs lines 81-124); named `thenOp` because
`then` is a Lean keyword.  Reads the status (`clone().unwrap()` — `none`
models the panic), then: Fulfilled overwrites `value` with
`on_fulfilled(value)`; Rejected overwrites it with
`on_rejected(value)`; Pending pushes a `resolve = true` entry wrapping
`on_fulfilled` and then a `resolve = false` entry wrapping `on_rejected`
(`as_mut().unwrap()` on the queue — `none` models the panic).  The Rust
function returns `&mut self`, so the updated cell is the same promise. -/
def thenOp (on_fulfilled on_rejected : Option String → Option String)
    (p : Promise) : Option Promise :=
  match p.status with
  | none => none
  | some Status.Fulfilled => some { p with value := on_fulfilled p.value }
  | some Status.Rejected => some { p with value := on_rejected p.value }
  | some Status.Pending =>
    match p.handlers with
    | none => none
    | some hs =>
      some { p with
        handlers := some (hs ++ [⟨true, on_fulfilled⟩, ⟨false, on_rejected⟩]) }

/-- `Promise::catch` (src/lib.rs lines 126-153); named `catchOp` because
`catch` is a Lean keyword.  Fulfilled: no-op; Rejected: overwrites the
stored reason with `on_rejected(reason)`; Pending: pushes one
`resolve = false` entry.  Returns `&mut self`. -/
def catchOp (on_rejected : Option String → Option String)
    (p : Promise) : Option Promise :=
  match p.status with
  | none => none
  | some Status.Fulfilled => some p
  | some Status.Rejected => some { p with value := on_rejected p.value }
  | some Status.Pending =>
    match p.handlers with
    | none => none
    | some hs => some { p with handlers := some (hs ++ [⟨false, on_rejected⟩]) }

/-- `Promise::resolve` (src/lib.rs lines 159-163): the settled cell of
the returned promise once its background unit has run the executor,
which immediately calls `resolve(value)` on the fresh cell. -/
def Promise.resolve (value : Option String) : Option Promise :=
  resolveCb value initPromise

/-- `Promise::reject` (src/lib.rs lines 165-169): symmetric. -/
def Promise.reject (reason : Option String) : Option Promise :=
  rejectCb reason initPromise

/-- The accumulator of the loop in `Promise::all_ex` (src/lib.rs lines
176-178). -/
structure AllAcc where
  rejected : Bool
  resolved_result : List String
  first_reject_reason : String

/-- One iteration of the loop in `Promise::all_ex` (src/lib.rs lines
179-198): the member's thread was joined, its status is read with
`clone().unwrap()` (`none` models the panic) and its value with
`unwrap_or` the empty string; Fulfilled pushes the value, Rejected sets
the flag and overwrites the recorded reason, Pending does nothing. -/
def allStep (acc : AllAcc) (p : Promise) : Option AllAcc :=
  match p.status with
  | none => none
  | some status =>
    let value := p.value.getD ""
    match status with
    | Status.Fulfilled =>
      some { acc with resolved_result := acc.resolved_result ++ [value] }
    | Status.Rejected =>
      some { acc with rejected := true, first_reject_reason := value }
    | Status.Pending => some acc

/-- `Promise::all_ex` (src/lib.rs lines 175-204): scan every member cell
left to right (each is the member's final cell, after its thread was
joined), then return `Promise::reject` of the recorded reason when any
member was Rejected, else `Promise::resolve` of the values joined with
the delimiter; the result is the returned promise's settled cell. -/
def Promise.all_ex (promises : List Promise) (delimeter : String) :
    Option Promise := do
  let acc ← promises.foldlM allStep ⟨false, [], ""⟩
  if acc.rejected then Promise.reject (some acc.first_reject_reason)
  else Promise.resolve (some (String.intercalate delimeter acc.resolved_result))

/-- `Promise::all` (src/lib.rs lines 171-173): `all_ex` with `";"`. -/
def Promise.all (promises : List Promise) : Option Promise :=
  Promise.all_ex promises ";"

/-- What a background execution unit does when it runs: the executor
calls `resolve`, calls `reject`, or returns without calling either (the
never-settled failure mode). -/
inductive ExecAction where
  | callResolve (value : Option String)
  | callReject (reason : Option String)
  | noCall

/-- Run a background unit's action on a cell. -/
def runExec : ExecAction → Promise → Option Promise
  | ExecAction.callResolve v, p => resolveCb v p
  | ExecAction.callReject r, p => rejectCb r p
  | ExecAction.noCall, p => some p

/-- A promise together with its background execution unit: the cell,
the action the executor performs, and whether the unit has already run
to completion. -/
structure Proc where
  cell : Promise
  act : ExecAction
  finished : Bool

/-- `Promise::a_await` (src/lib.rs lines 155-157): the body is only
`let _ = self.thread.join()` — it blocks until the background unit has
finished and discards the join result; it neither reads nor writes the
settlement cell itself, so once the unit is finished the cell is left
exactly as the unit left it. -/
def a_await (p : Proc) : Proc :=
  if p.finished then p
  else ⟨(runExec p.act p.cell).getD p.cell, p.act, true⟩

/-- Specification-side helper: apply every transform of a handler list
to a payload, left to right. -/
def applyTransforms (hs : List Handler) (v : Option String) : Option String :=
  hs.foldl (fun prev h => h.handler prev) v

/-- Specification-side helper: the reason of the last Rejected member in
the left-to-right scan, an absent value coerced to the empty string. -/
def lastRejectedReason (promises : List Promise) : String :=
  (((promises.filter fun p => decide (p.status = some Status.Rejected)).getLast?).map
    fun p => p.value.getD "").getD ""

/-- Specification-side helper: the values of the Fulfilled members in
input order, absent values coerced to the empty string; Pending members
contribute nothing. -/
def fulfilledValues (promises : List Promise) : List String :=
  promises.filterMap fun p =>
    if p.status = some Status.Fulfilled then some (p.value.getD "") else none

/-! ## Helper lemmas -/

lemma foldl_if_filter (b : Bool) (hs : List Handler) (v : Option String) :
    hs.foldl (fun prev h => if h.resolve == b then h.handler prev else prev) v
      = applyTransforms (hs.filter fun h => h.resolve == b) v := by
  induction hs generalizing v with
  | nil => rfl
  | cons h t ih =>
    simp only [List.foldl_cons, List.filter_cons]
    by_cases hb : (h.resolve == b) = true
    · rw [if_pos hb, if_pos hb]
      exact ih (h.handler v)
    · rw [if_neg hb, if_neg hb]
      exact ih v

lemma resolveCb_eq (v w : Option String) (st : Status) (hs : List Handler) :
    resolveCb v ⟨w, some st, some hs⟩
      = some ⟨applyTransforms (hs.filter fun h => h.resolve == true) v,
          some Status.Fulfilled, none⟩ :=
  congrArg (fun x => some (⟨x, some Status.Fulfilled, none⟩ : Promise))
    (foldl_if_filter true hs v)

lemma rejectCb_eq (r w : Option String) (st : Status) (hs : List Handler) :
    rejectCb r ⟨w, some st, some hs⟩
      = some ⟨applyTransforms (hs.filter fun h => h.resolve == false) r,
          some Status.Rejected, none⟩ :=
  congrArg (fun x => some (⟨x, some Status.Rejected, none⟩ : Promise))
    (foldl_if_filter false hs r)

/-! ## Claim theorems -/

/-- C1: `resolve(v)` drains the handler queue exactly once (the queue
slot is left consumed) and folds over it in insertion order, applying
exactly the transforms of the entries whose fulfillment flag is true to
the running value, skipping the rest; the final running value is stored
and the status set to Fulfilled.  Consequently, for fulfillment handlers
`f1` and `f2` registered in that order via `then` while Pending, the
value seen by `f2` is `f1`'s return value: the settled value is
`f2 (f1 v)`. -/
theorem resolve_fold_order (v w : Option String) (st : Status)
    (hs : List Handler)
    (f1 g1 f2 g2 : Option String → Option String) :
    resolveCb v ⟨w, some st, some hs⟩
      = some ⟨applyTransforms (hs.filter fun h => h.resolve == true) v,
          some Status.Fulfilled, none⟩
    ∧ Option.bind (Option.bind (thenOp f1 g1 initPromise) (thenOp f2 g2))
        (resolveCb v)
      = some ⟨f2 (f1 v), some Status.Fulfilled, none⟩ :=
  ⟨resolveCb_eq v w st hs, rfl⟩

/-- C2: `reject(r)` drains the same queue, applying exactly the
transforms of the entries whose fulfillment flag is false, in insertion
order, stores the final running reason and sets the status to Rejected.
A fulfillment handler registered via `then` is never invoked when the
promise settles Rejected (the settled reason is `g r`, with `f` absent),
and a rejection handler is never invoked when it settles Fulfilled (the
settled value is `f v`, with `g` absent). -/
theorem reject_fold_isolation (r v w : Option String) (st : Status)
    (hs : List Handler) (f g : Option String → Option String) :
    rejectCb r ⟨w, some st, some hs⟩
      = some ⟨applyTransforms (hs.filter fun h => h.resolve == false) r,
          some Status.Rejected, none⟩
    ∧ Option.bind (thenOp f g initPromise) (rejectCb r)
      = some ⟨g r, some Status.Rejected, none⟩
    ∧ Option.bind (thenOp f g initPromise) (resolveCb v)
      = some ⟨f v, some Status.Fulfilled, none⟩ :=
  ⟨rejectCb_eq r w st hs, rfl, rfl⟩

/-- C4: `then(f, g)` dispatches on the current status: on a Fulfilled
cell it immediately overwrites the stored value with `f` of it, on a
Rejected cell with `g` of it (handlers slot untouched in both cases),
and on a Pending cell it appends exactly two entries to the queue — the
fulfillment-flagged wrapper of `f` followed by the rejection-flagged
wrapper of `g` — after all previously registered entries, preserving
call order; the same cell (promise) is returned, updated in place. -/
theorem then_by_status (f g : Option String → Option String)
    (w : Option String) (hq : Option (List Handler)) (hs : List Handler) :
    thenOp f g ⟨w, some Status.Fulfilled, hq⟩
      = some ⟨f w, some Status.Fulfilled, hq⟩
    ∧ thenOp f g ⟨w, some Status.Rejected, hq⟩
      = some ⟨g w, some Status.Rejected, hq⟩
    ∧ thenOp f g ⟨w, some Status.Pending, some hs⟩
      = some ⟨w, some Status.Pending,
          some (hs ++ [⟨true, f⟩, ⟨false, g⟩])⟩ :=
  ⟨rfl, rfl, rfl⟩

/-- C7: `catch(g)` is the rejection-path restriction of
`then(identity, g)`: on a Fulfilled cell it is a no-op (the stored value
is unchanged and `g` is not invoked), on a Rejected cell it immediately
overwrites the stored reason with `g` of it, and on a Pending cell it
appends exactly one rejection-flagged entry.  On the Rejected branch it
agrees with `thenOp id g` exactly, and registering via `catch` instead
of `then(id, g)` on a fresh pending promise yields the same settled
cell under a subsequent reject or resolve. -/
theorem catch_rejection_only (g : Option String → Option String)
    (w r v : Option String) (hq : Option (List Handler)) (hs : List Handler) :
    catchOp g ⟨w, some Status.Fulfilled, hq⟩
      = some ⟨w, some Status.Fulfilled, hq⟩
    ∧ catchOp g ⟨w, some Status.Rejected, hq⟩
      = some ⟨g w, some Status.Rejected, hq⟩
    ∧ catchOp g ⟨w, some Status.Pending, some hs⟩
      = some ⟨w, some Status.Pending, some (hs ++ [⟨false, g⟩])⟩
    ∧ catchOp g ⟨w, some Status.Rejected, hq⟩
      = thenOp id g ⟨w, some Status.Rejected, hq⟩
    ∧ Option.bind (catchOp g initPromise) (rejectCb r)
      = Option.bind (thenOp id g initPromise) (rejectCb r)
    ∧ Option.bind (catchOp g initPromise) (resolveCb v)
      = Option.bind (thenOp id g initPromise) (resolveCb v) :=
  ⟨rfl, rfl, rfl, rfl, rfl, rfl⟩

/-- C8: timing of registration relative to settlement does not change
the single-handler transform result: `then(f, g)` on the already settled
cell of `Promise::resolve v` (which is `⟨v, Fulfilled, consumed⟩`)
stores the same final value as registering `then(f, g)` on a fresh
pending promise and then having the executor call `resolve(v)`. -/
theorem then_immediate_apply_equiv (f g : Option String → Option String)
    (v : Option String) :
    Promise.resolve v = some ⟨v, some Status.Fulfilled, none⟩
    ∧ (thenOp f g ⟨v, some Status.Fulfilled, none⟩).map Promise.value
      = (Option.bind (thenOp f g initPromise) (resolveCb v)).map Promise.value
    ∧ (thenOp f g ⟨v, some Status.Fulfilled, none⟩).map Promise.value
      = some (f v) :=
  ⟨rfl, rfl, rfl⟩

/-- C10: after a first settlement (resolve or reject) on a live cell,
the handler-queue slot is consumed, so a second settlement call of
either kind panics on the `take().unwrap()` of the absent queue
(modelled by `none`) instead of producing a new settled cell: the first
settlement's stored value and status are never silently replaced. -/
theorem double_settlement_panics (v v2 r r2 w : Option String) (st : Status)
    (hs : List Handler) :
    Option.bind (resolveCb v ⟨w, some st, some hs⟩) (resolveCb v2) = none
    ∧ Option.bind (resolveCb v ⟨w, some st, some hs⟩) (rejectCb r) = none
    ∧ Option.bind (rejectCb r ⟨w, some st, some hs⟩) (rejectCb r2) = none
    ∧ Option.bind (rejectCb r ⟨w, some st, some hs⟩) (resolveCb v) = none :=
  ⟨rfl, rfl, rfl, rfl⟩

/-- C3: the status starts as `Some(Pending)` on the fresh cell and
transitions exactly once: `then`/`catch` never change it, a successful
`resolve` sets it to Fulfilled and a successful `reject` to Rejected,
and either consumes the handler-queue slot, after which any further
`resolve` or `reject` panics (returns `none`) instead of transitioning
again — so the status never reverses and, once the background unit has
settled the cell, every later observation sees the same status. -/
theorem status_single_settlement :
    initPromise.status = some Status.Pending
    ∧ (∀ f g p p2, thenOp f g p = some p2 → p2.status = p.status)
    ∧ (∀ g p p2, catchOp g p = some p2 → p2.status = p.status)
    ∧ (∀ v p p2, resolveCb v p = some p2 →
        p2.status = some Status.Fulfilled ∧ p2.handlers = none)
    ∧ (∀ r p p2, rejectCb r p = some p2 →
        p2.status = some Status.Rejected ∧ p2.handlers = none)
    ∧ (∀ v p, p.handlers = none → resolveCb v p = none)
    ∧ (∀ r p, p.handlers = none → rejectCb r p = none) := by
  refine ⟨rfl, ?_, ?_, ?_, ?_, ?_, ?_⟩
  · intro f g p p2 h
    unfold thenOp at h
    rcases p with ⟨w, st, hq⟩
    rcases st with _ | st
    · exact absurd h (by simp)
    · rcases st with _ | _ | _
      · rcases hq with _ | hs
        · exact absurd h (by simp)
        · simp only [Option.some.injEq] at h
          rw [← h]
      · simp only [Option.some.injEq] at h
        rw [← h]
      · simp only [Option.some.injEq] at h
        rw [← h]
  · intro g p p2 h
    unfold catchOp at h
    rcases p with ⟨w, st, hq⟩
    rcases st with _ | st
    · exact absurd h (by simp)
    · rcases st with _ | _ | _
      · rcases hq with _ | hs
        · exact absurd h (by simp)
        · simp only [Option.some.injEq] at h
          rw [← h]
      · simp only [Option.some.injEq] at h
        rw [← h]
      · simp only [Option.some.injEq] at h
        rw [← h]
  · intro v p p2 h
    unfold resolveCb at h
    rcases p with ⟨w, st, hq⟩
    rcases hq with _ | hs
    · exact absurd h (by simp)
    · rcases st with _ | st
      · exact absurd h (by simp)
      · simp only [Option.some.injEq] at h
        rw [← h]
        exact ⟨rfl, rfl⟩
  · intro r p p2 h
    unfold rejectCb at h
    rcases p with ⟨w, st, hq⟩
    rcases hq with _ | hs
    · exact absurd h (by simp)
    · rcases st with _ | st
      · exact absurd h (by simp)
      · simp only [Option.some.injEq] at h
        rw [← h]
        exact ⟨rfl, rfl⟩
  · intro v p h
    unfold resolveCb
    rw [h]
  · intro r p h
    unfold rejectCb
    rw [h]

/-- Witness for C3 at concrete inputs: a `then` and a `catch` registered
on the fresh pending cell leave its status Pending, a settled cell has
the settled status and a consumed queue, and settling an
already-consumed cell panics. -/
theorem status_single_settlement_witness :
    (⟨none, some Status.Pending, some [⟨true, id⟩, ⟨false, id⟩]⟩
        : Promise).status = initPromise.status
    ∧ (⟨none, some Status.Pending, some [⟨false, id⟩]⟩
        : Promise).status = initPromise.status
    ∧ ((⟨some "a", some Status.Fulfilled, none⟩ : Promise).status
          = some Status.Fulfilled
        ∧ (⟨some "a", some Status.Fulfilled, none⟩ : Promise).handlers = none)
    ∧ ((⟨some "b", some Status.Rejected, none⟩ : Promise).status
          = some Status.Rejected
        ∧ (⟨some "b", some Status.Rejected, none⟩ : Promise).handlers = none)
    ∧ resolveCb (some "c") ⟨some "a", some Status.Fulfilled, none⟩ = none
    ∧ rejectCb (some "c") ⟨some "a", some Status.Fulfilled, none⟩ = none :=
  ⟨status_single_settlement.2.1 id id initPromise
      ⟨none, some Status.Pending, some [⟨true, id⟩, ⟨false, id⟩]⟩ rfl,
   status_single_settlement.2.2.1 id initPromise
      ⟨none, some Status.Pending, some [⟨false, id⟩]⟩ rfl,
   status_single_settlement.2.2.2.1 (some "a") initPromise
      ⟨some "a", some Status.Fulfilled, none⟩ rfl,
   status_single_settlement.2.2.2.2.1 (some "b") initPromise
      ⟨some "b", some Status.Rejected, none⟩ rfl,
   status_single_settlement.2.2.2.2.2.1 (some "c")
      ⟨some "a", some Status.Fulfilled, none⟩ rfl,
   status_single_settlement.2.2.2.2.2.2 (some "c")
      ⟨some "a", some Status.Fulfilled, none⟩ rfl⟩

/-- C9: `a_await` only joins the background unit: afterwards the unit
has finished; if the unit had already finished, the promise — in
particular its settled value and status — is left exactly as it was;
and awaiting again changes nothing, so the settlement data remains
queryable and identical across later observations. -/
theorem a_await_frame (p : Proc) :
    (a_await p).finished = true
    ∧ (p.finished = true → a_await p = p)
    ∧ a_await (a_await p) = a_await p
    ∧ (p.finished = true → (a_await p).cell.value = p.cell.value
        ∧ (a_await p).cell.status = p.cell.status) := by
  rcases p with ⟨cell, act, fin⟩
  rcases fin with _ | _
  · exact ⟨rfl, fun h => absurd h (by simp), rfl, fun h => absurd h (by simp)⟩
  · exact ⟨rfl, fun _ => rfl, rfl, fun _ => ⟨rfl, rfl⟩⟩

/-- Witness for C9: a finished promise is returned unchanged by
`a_await`. -/
theorem a_await_frame_witness :
    a_await ⟨⟨some "v", some Status.Fulfilled, none⟩, ExecAction.noCall, true⟩
      = ⟨⟨some "v", some Status.Fulfilled, none⟩, ExecAction.noCall, true⟩ :=
  (a_await_frame
    ⟨⟨some "v", some Status.Fulfilled, none⟩, ExecAction.noCall, true⟩).2.1 rfl

lemma getLast?_cons_of_ne_nil {α : Type} (a : α) (l : List α) (h : l ≠ []) :
    (a :: l).getLast? = l.getLast? := by
  rcases l with _ | ⟨b, t⟩
  · exact absurd rfl h
  · exact List.getLast?_cons_cons

lemma foldlM_allStep_no_reject (promises : List Promise) (acc : AllAcc)
    (hall : ∀ p ∈ promises, (p.status).isSome)
    (hnr : ∀ p ∈ promises, p.status ≠ some Status.Rejected) :
    promises.foldlM allStep acc
      = some ⟨acc.rejected, acc.resolved_result ++ fulfilledValues promises,
          acc.first_reject_reason⟩ := by
  induction promises generalizing acc with
  | nil => simp [fulfilledValues]
  | cons p rest ih =>
    obtain ⟨st, hst⟩ := Option.isSome_iff_exists.mp (hall p (by simp))
    have hallr : ∀ q ∈ rest, (q.status).isSome :=
      fun q hq => hall q (List.mem_cons_of_mem p hq)
    have hnrr : ∀ q ∈ rest, q.status ≠ some Status.Rejected :=
      fun q hq => hnr q (List.mem_cons_of_mem p hq)
    rw [List.foldlM_cons]
    rcases st with _ | _ | _
    · have hstep : allStep acc p = some acc := by
        simp [allStep, hst]
      rw [hstep]
      show rest.foldlM allStep acc = _
      rw [ih acc hallr hnrr]
      simp [fulfilledValues, List.filterMap_cons, hst]
    · have hstep : allStep acc p
          = some ⟨acc.rejected,
              acc.resolved_result ++ [p.value.getD ""],
              acc.first_reject_reason⟩ := by
        simp [allStep, hst]
      rw [hstep]
      show rest.foldlM allStep _ = _
      rw [ih _ hallr hnrr]
      simp [fulfilledValues, List.filterMap_cons, hst]
    · exact absurd hst (hnr p (by simp))

lemma foldlM_allStep_reject (promises : List Promise) (acc : AllAcc)
    (hall : ∀ p ∈ promises, (p.status).isSome)
    (hrej : ∃ p ∈ promises, p.status = some Status.Rejected) :
    promises.foldlM allStep acc
      = some ⟨true, acc.resolved_result ++ fulfilledValues promises,
          lastRejectedReason promises⟩ := by
  induction promises generalizing acc with
  | nil => exact absurd hrej (by simp)
  | cons p rest ih =>
    obtain ⟨st, hst⟩ := Option.isSome_iff_exists.mp (hall p (by simp))
    have hallr : ∀ q ∈ rest, (q.status).isSome :=
      fun q hq => hall q (List.mem_cons_of_mem p hq)
    rw [List.foldlM_cons]
    by_cases hr : ∃ q ∈ rest, q.status = some Status.Rejected
    · rcases st with _ | _ | _
      · have hstep : allStep acc p = some acc := by
          simp [allStep, hst]
        rw [hstep]
        show rest.foldlM allStep acc = _
        rw [ih acc hallr hr]
        simp [fulfilledValues, List.filterMap_cons, lastRejectedReason,
          List.filter_cons, hst]
      · have hstep : allStep acc p
            = some ⟨acc.rejected,
                acc.resolved_result ++ [p.value.getD ""],
                acc.first_reject_reason⟩ := by
          simp [allStep, hst]
        rw [hstep]
        show rest.foldlM allStep _ = _
        rw [ih _ hallr hr]
        simp [fulfilledValues, List.filterMap_cons, lastRejectedReason,
          List.filter_cons, hst]
      · have hstep : allStep acc p
            = some ⟨true, acc.resolved_result, p.value.getD ""⟩ := by
          simp [allStep, hst]
        rw [hstep]
        show rest.foldlM allStep _ = _
        rw [ih _ hallr hr]
        obtain ⟨q, hq, hqst⟩ := hr
        have hfil : rest.filter
            (fun x => decide (x.status = some Status.Rejected)) ≠ [] := by
          intro hnil
          have := (List.filter_eq_nil_iff.mp hnil) q hq
          simp [hqst] at this
        have hlast : lastRejectedReason (p :: rest) = lastRejectedReason rest := by
          unfold lastRejectedReason
          rw [List.filter_cons, if_pos (by simp [hst]),
            getLast?_cons_of_ne_nil _ _ hfil]
        rw [hlast]
        simp [fulfilledValues, List.filterMap_cons, hst]
    · have hp : p.status = some Status.Rejected := by
        rcases hrej with ⟨q, hq, hqst⟩
        rcases List.mem_cons.mp hq with hq1 | hq2
        · rw [← hq1]; exact hqst
        · exact absurd ⟨q, hq2, hqst⟩ hr
      rw [hst] at hp
      have hstR : p.status = some Status.Rejected := by rw [hst, hp]
      have hstep : allStep acc p
          = some ⟨true, acc.resolved_result, p.value.getD ""⟩ := by
        simp [allStep, hstR]
      rw [hstep]
      show rest.foldlM allStep _ = _
      have hnrr : ∀ q ∈ rest, q.status ≠ some Status.Rejected := by
        intro q hq hqst
        exact hr ⟨q, hq, hqst⟩
      rw [foldlM_allStep_no_reject rest _ hallr hnrr]
      have hfilnil : rest.filter
          (fun x => decide (x.status = some Status.Rejected)) = [] :=
        List.filter_eq_nil_iff.mpr (by
          intro q hq
          simp [hnrr q hq])
      have hlast : lastRejectedReason (p :: rest) = p.value.getD "" := by
        unfold lastRejectedReason
        rw [List.filter_cons, if_pos (by simp [hstR]), hfilnil]
        rfl
      rw [hlast]
      simp [fulfilledValues, List.filterMap_cons, hstR]

/-- C5: when some member of the input sequence settled Rejected, the
scan in `all_ex` still walks every member left to right (no early
exit), and the result — for `all_ex` with any separator and for `all`
alike — is a rejected promise whose reason is the reason of the last
Rejected member in the scan, an absent reason coerced to the empty
string. -/
theorem all_ex_rejected_last_reason (promises : List Promise) (d : String)
    (hall : ∀ p ∈ promises, (p.status).isSome)
    (hrej : ∃ p ∈ promises, p.status = some Status.Rejected) :
    Promise.all_ex promises d
      = some ⟨some (lastRejectedReason promises), some Status.Rejected, none⟩
    ∧ Promise.all promises
      = some ⟨some (lastRejectedReason promises), some Status.Rejected, none⟩ := by
  constructor
  · unfold Promise.all_ex
    rw [foldlM_allStep_reject promises _ hall hrej]
    rfl
  · unfold Promise.all Promise.all_ex
    rw [foldlM_allStep_reject promises _ hall hrej]
    rfl

/-- Witness for C5: the spec's example
`all [resolved "a", rejected "x", rejected "y"]` yields a rejected
promise with reason `"y"` (the last rejected member), the first
member's value discarded. -/
theorem all_ex_rejected_last_reason_witness :
    Promise.all [⟨some "a", some Status.Fulfilled, none⟩,
        ⟨some "x", some Status.Rejected, none⟩,
        ⟨some "y", some Status.Rejected, none⟩]
      = some ⟨some "y", some Status.Rejected, none⟩ :=
  (all_ex_rejected_last_reason
    [⟨some "a", some Status.Fulfilled, none⟩,
     ⟨some "x", some Status.Rejected, none⟩,
     ⟨some "y", some Status.Rejected, none⟩] ";"
    (by decide)
    ⟨⟨some "x", some Status.Rejected, none⟩, by simp, rfl⟩).2

/-- C6: when no member of the input sequence settled Rejected, `all_ex`
returns a fulfilled promise carrying the Fulfilled members' values in
input order joined with the separator, an absent value coerced to the
empty string, and a member still Pending contributing nothing to the
joined value; `all` is `all_ex` with the default separator `";"`. -/
theorem all_ex_fulfilled_join (promises : List Promise) (d : String)
    (hall : ∀ p ∈ promises, (p.status).isSome)
    (hnr : ∀ p ∈ promises, p.status ≠ some Status.Rejected) :
    Promise.all_ex promises d
      = some ⟨some (String.intercalate d (fulfilledValues promises)),
          some Status.Fulfilled, none⟩
    ∧ Promise.all promises
      = some ⟨some (String.intercalate ";" (fulfilledValues promises)),
          some Status.Fulfilled, none⟩ := by
  constructor
  · unfold Promise.all_ex
    rw [foldlM_allStep_no_reject promises _ hall hnr]
    rfl
  · unfold Promise.all Promise.all_ex
    rw [foldlM_allStep_no_reject promises _ hall hnr]
    rfl

/-- Witness for C6: the spec's example `all [resolved "a", resolved "b"]`
yields a fulfilled promise with value `"a;b"`. -/
theorem all_ex_fulfilled_join_witness :
    Promise.all [⟨some "a", some Status.Fulfilled, none⟩,
        ⟨some "b", some Status.Fulfilled, none⟩]
      = some ⟨some "a;b", some Status.Fulfilled, none⟩ :=
  (all_ex_fulfilled_join
    [⟨some "a", some Status.Fulfilled, none⟩,
     ⟨some "b", some Status.Fulfilled, none⟩] ";"
    (by decide) (by decide)).2
